import Mathlib

/-!
Verification of the block-statistics / histogram library
(`histogram_driver_util.hpp`, `histogram.cpp`, `src/histogram.cpp`).

The C++ reference path works on `std::vector<int>` pixel buffers and
`double` statistics.  Pixels are embedded as `ℤ` (the C++ `int` values are
small), and `double` arithmetic is embedded as exact arithmetic on `ℚ`.
`std::vector` indexing `v[i]` is embedded as `List.getD i 0`; an
out-of-range read or write is undefined behaviour in C++ and is modelled as
reading `0` / leaving the vector unchanged.
-/

/-- Models the C++ conversion from `double` to `int` (as in
`int interval = input[i]/binSize;`): truncation toward zero. -/
def cppTruncToInt (q : ℚ) : ℤ :=
  if 0 ≤ q then ⌊q⌋ else ⌈q⌉

/-! ## Block statistics engine (`histogram_driver_util.hpp`) -/

/-- Inner pixel loop shared by `calculateAverage` / `calculateVariance`:
starting from row `i`, column `j`, visit `n` pixels of the block whose
top-left pixel sits at flat offset `off`; after each pixel `j` is
incremented and wraps to the next row once it reaches `blockWidth`
(`j++; if (j == blockWidth) { j = 0; i++; }`).  Returns the list of visited
pixel values `imageVector[i * imageWidth + j + offset]` in visit order. -/
def blockScan (imageVector : List ℤ) (imageWidth off blockWidth : ℕ) :
    ℕ → ℕ → ℕ → List ℤ
  | 0, _, _ => []
  | n + 1, i, j =>
      imageVector.getD (i * imageWidth + j + off) 0 ::
        (if j + 1 = blockWidth then
          blockScan imageVector imageWidth off blockWidth n (i + 1) 0
        else
          blockScan imageVector imageWidth off blockWidth n i (j + 1))

/-- Block cursor update at the end of each outer-loop iteration of
`calculateAverage` / `calculateVariance` / `calculateAverageAndVariance`:
`x += blockWidth; if (x + blockWidth > imageWidth) { x = 0; y += blockHeight; }`. -/
def nextBlockPos (imageWidth blockWidth blockHeight : ℕ) (p : ℕ × ℕ) : ℕ × ℕ :=
  if imageWidth < p.1 + blockWidth + blockWidth then (0, p.2 + blockHeight)
  else (p.1 + blockWidth, p.2)

/-- Outer loop of `calculateAverage`, carrying the `(x, y)` block cursor:
for each block the flat offset is `x + y * imageWidth + globalOffset`, the
block's pixels are summed and `average[block] = (double)blocksum / blockSize`. -/
def calculateAverageAux (imageVector : List ℤ)
    (globalOffset imageWidth blockSize blockWidth blockHeight : ℕ) :
    ℕ → ℕ × ℕ → List ℚ
  | 0, _ => []
  | n + 1, p =>
      (((blockScan imageVector imageWidth (p.1 + p.2 * imageWidth + globalOffset)
          blockWidth blockSize 0 0).sum : ℚ) / (blockSize : ℚ)) ::
        calculateAverageAux imageVector globalOffset imageWidth blockSize
          blockWidth blockHeight n (nextBlockPos imageWidth blockWidth blockHeight p)

/-- Embedding of `calculateAverage` from `histogram_driver_util.hpp`. -/
def calculateAverage (imageVector : List ℤ)
    (globalOffset imageWidth numOfBlocks blockSize blockWidth blockHeight : ℕ) :
    List ℚ :=
  calculateAverageAux imageVector globalOffset imageWidth blockSize blockWidth
    blockHeight numOfBlocks (0, 0)

/-- Outer loop of `calculateVariance`, carrying the block index `k` (the
source indexes `average[block]`) and the `(x, y)` cursor: for each block it
accumulates `pow(val - average[block], 2)` over the block's pixels and sets
`variance[block] = (double)variancesum / blockSize`. -/
def calculateVarianceAux (imageVector : List ℤ)
    (globalOffset imageWidth blockSize blockWidth blockHeight : ℕ)
    (average : List ℚ) : ℕ → ℕ → ℕ × ℕ → List ℚ
  | 0, _, _ => []
  | n + 1, k, p =>
      (((blockScan imageVector imageWidth (p.1 + p.2 * imageWidth + globalOffset)
            blockWidth blockSize 0 0).map
          (fun val => ((val : ℚ) - average.getD k 0) ^ 2)).sum / (blockSize : ℚ)) ::
        calculateVarianceAux imageVector globalOffset imageWidth blockSize
          blockWidth blockHeight average n (k + 1)
          (nextBlockPos imageWidth blockWidth blockHeight p)

/-- Embedding of `calculateVariance` from `histogram_driver_util.hpp`. -/
def calculateVariance (imageVector : List ℤ)
    (globalOffset imageWidth numOfBlocks blockSize blockWidth blockHeight : ℕ)
    (average : List ℚ) : List ℚ :=
  calculateVarianceAux imageVector globalOffset imageWidth blockSize blockWidth
    blockHeight average numOfBlocks 0 (0, 0)

/-- Position of the block cursor when the outer loop reaches block `k`
(iterating the end-of-block update from `(0, 0)`). -/
def blockPos (imageWidth blockWidth blockHeight : ℕ) (k : ℕ) : ℕ × ℕ :=
  (nextBlockPos imageWidth blockWidth blockHeight)^[k] (0, 0)

/-- Flat offset of block `k` of a plane: `x + y * imageWidth + globalOffset`
at the cursor position of block `k`. -/
def blockOffset (imageWidth blockWidth blockHeight globalOffset k : ℕ) : ℕ :=
  (blockPos imageWidth blockWidth blockHeight k).1 +
    (blockPos imageWidth blockWidth blockHeight k).2 * imageWidth + globalOffset

/-- The `blockWidth × blockHeight` rectangle of pixels whose top-left pixel
sits at flat offset `off`, listed row-major. -/
def blockRect (imageVector : List ℤ) (imageWidth off blockWidth blockHeight : ℕ) :
    List ℤ :=
  ((List.range blockHeight).map (fun i =>
    (List.range blockWidth).map (fun j =>
      imageVector.getD (i * imageWidth + j + off) 0))).flatten

/-- Written from the spec's words, for comparison with the code: the
population variance of a list of pixels — the mean of squared deviations
from the list's own average, `Σ(pixel - average)² / blockSize` with no `n-1`
correction. -/
def specPopulationVariance (pixels : List ℤ) : ℚ :=
  let avg : ℚ := (pixels.sum : ℚ) / (pixels.length : ℚ)
  ((pixels.map (fun v => ((v : ℚ) - avg) ^ 2)).sum) / (pixels.length : ℚ)

/-- Sum of all pixel magnitudes of the `imageWidth × imageHeight` plane that
starts at flat offset `globalOffset`. -/
def planeSum (imageVector : List ℤ) (globalOffset imageWidth imageHeight : ℕ) : ℤ :=
  ((List.range imageHeight).map (fun y =>
    ((List.range imageWidth).map (fun x =>
      imageVector.getD (y * imageWidth + x + globalOffset) 0)).sum)).sum

/-! ## Histogram binner (`histogram_driver_util.hpp`) -/

/-- Bin index chosen by both `calculateHistogram` overloads:
`int interval = input[i]/binSize;` (`input[i]` is a `double`, so the
division is floating-point and the result is truncated to `int`). -/
def binInterval (v : ℚ) (binSize : ℕ) : ℤ :=
  cppTruncToInt (v / (binSize : ℚ))

/-- One bin update `bins[interval] += w`.  A bin index outside
`[0, bins.size())` is an out-of-bounds access in C++ (undefined behaviour),
modelled as leaving the bins unchanged. -/
def binUpdate {M : Type} [Zero M] [Add M] (bins : List M) (interval : ℤ) (w : M) :
    List M :=
  if 0 ≤ interval then
    bins.set interval.toNat (bins.getD interval.toNat 0 + w)
  else bins

/-- Embedding of the unweighted `calculateHistogram(input, numOfBins, bins)`
overload: `binSize = 256/numOfBins` (integer division) and for every input
value `bins[interval]++`. -/
def calculateHistogram (input : List ℚ) (numOfBins : ℕ) (bins : List ℤ) : List ℤ :=
  let binSize := 256 / numOfBins
  input.foldl (fun b v => binUpdate b (binInterval v binSize) 1) bins

/-- Embedding of the weighted
`calculateHistogram(input, numOfBins, bins, increment)` overload: the bin is
chosen from `input[i]` but the amount added is `increment[i]`
(`bins[interval] += increment[i]`). -/
def calculateHistogramWeighted (input : List ℚ) (numOfBins : ℕ) (bins : List ℚ)
    (increment : List ℚ) : List ℚ :=
  let binSize := 256 / numOfBins
  (input.zip increment).foldl
    (fun b p => binUpdate b (binInterval p.1 binSize) p.2) bins

/-! ## Equivalence validator (`histogram_driver_util.hpp`) -/

/-- Classification printed by `validateVectorError`. -/
inductive ValidationResult : Type
  | Pass : ValidationResult
  | PassWithWarning : ValidationResult
  | Fail : ValidationResult
deriving DecidableEq

/-- Error value computed by `validateVectorError(input, validatingVector)`:
for every index of `input`, indices with `validatingVector[i] != 0`
contribute `abs(validatingVector[i] - input[i]) / validatingVector[i]` to the
sum, and the result is `sum / input.size() * 100`. -/
def validateVectorErrorValue (input validatingVector : List ℚ) : ℚ :=
  ((List.range input.length).foldl
    (fun sum i =>
      if validatingVector.getD i 0 ≠ 0 then
        sum + |validatingVector.getD i 0 - input.getD i 0| / validatingVector.getD i 0
      else sum) 0) / (input.length : ℚ) * 100

/-- Classification branch of `validateVectorError`: `error == 0` prints PASS,
`error < 1` prints PASS with the error percentage, otherwise FAIL. -/
def validateVectorErrorResult (input validatingVector : List ℚ) : ValidationResult :=
  let error := validateVectorErrorValue input validatingVector
  if error = 0 then ValidationResult.Pass
  else if error < 1 then ValidationResult.PassWithWarning
  else ValidationResult.Fail

/-- Written from the spec's words, for comparison with the code: the mean of
`|reference[i] - candidate[i]| / reference[i]` over all `i` where
`reference[i] != 0` (other indices are excluded from the sum entirely),
divided by the full vector length and expressed as a percentage. -/
def specValidationError (candidate reference : List ℚ) : ℚ :=
  (∑ i ∈ (Finset.range candidate.length).filter
      (fun i => reference.getD i 0 ≠ 0),
    |reference.getD i 0 - candidate.getD i 0| / reference.getD i 0) /
    (candidate.length : ℚ) * 100

/-! ## Dimension adjustment -/

/-- Embedding of `Histogram::adjustDimension` (`histogram.cpp` /
`src/histogram.cpp`): a zero `blockDimension` is guarded and the dimension is
returned unchanged, otherwise `dimension - (dimension % blockDimension)` where
`%` is the C++ truncated remainder (`Int.tmod`). -/
def Histogram.adjustDimension (dimension blockDimension : ℤ) : ℤ :=
  if blockDimension = 0 then dimension
  else dimension - Int.tmod dimension blockDimension

/-- Embedding of the free function `adjustDimension` from
`histogram_driver_util.hpp`: `dimension - (dimension % blockDimension)` with
no zero-divisor guard (a zero divisor is undefined behaviour in C++, so this
model is only meaningful for `blockDimension ≠ 0`). -/
def adjustDimension (dimension blockDimension : ℤ) : ℤ :=
  dimension - Int.tmod dimension blockDimension

/-! ## The `Histogram` class (`src/histogram.cpp`, enum interface)

State model: the configuration, geometry, result-vector and timer fields of
the class.  OpenCL handles (platform, context, queue, kernels, buffers) have
no observable value in the embedding; operations on them are modelled as
identities on the modelled fields.  `varhist` is `int` (the non-NVIDIA
default of `histogram.hpp`). -/

/-- Image format enumeration (`Histogram::Format`). -/
inductive HFormat : Type
  | YUV : HFormat
  | NV12 : HFormat
deriving DecidableEq

/-- Chromatic option enumeration (`Histogram::Color`). -/
inductive HColor : Type
  | Chromatic : HColor
  | Grayscale : HColor
deriving DecidableEq

/-- Channel selector enumeration (`Histogram::Channel`). -/
inductive HChannel : Type
  | Y : HChannel
  | U : HChannel
  | V : HChannel
deriving DecidableEq

/-- Detail option enumeration (`Histogram::Detail`). -/
inductive HDetail : Type
  | Exclude : HDetail
  | Include : HDetail
deriving DecidableEq

/-- Modelled fields of the `Histogram` class from `src/histogram.cpp`. -/
structure HistogramState : Type where
  environmentSetUp : Bool
  imgWidth : ℕ
  imgHeight : ℕ
  blockWidth : ℕ
  blockHeight : ℕ
  numOfBins : ℕ
  format : HFormat
  color : HColor
  showErrors : Bool
  ySize : ℕ
  uSize : ℕ
  vSize : ℕ
  imageSize : ℕ
  yBlockWidth : ℕ
  yBlockHeight : ℕ
  yBlockSize : ℕ
  yNumOfBlocks : ℕ
  uBlockWidth : ℕ
  uBlockHeight : ℕ
  uBlockSize : ℕ
  uNumOfBlocks : ℕ
  vBlockWidth : ℕ
  vBlockHeight : ℕ
  vBlockSize : ℕ
  vNumOfBlocks : ℕ
  globalRange : ℕ × ℕ
  localRange : ℕ × ℕ
  yAverage : List ℚ
  uAverage : List ℚ
  vAverage : List ℚ
  yVariance : List ℚ
  uVariance : List ℚ
  vVariance : List ℚ
  yAverageBins : List ℤ
  uAverageBins : List ℤ
  vAverageBins : List ℤ
  yVarianceBins : List ℤ
  uVarianceBins : List ℤ
  vVarianceBins : List ℤ
  elapsedTime : ℚ
deriving DecidableEq

/-- Variant of `Histogram::adjustDimension` on `ℕ` used by
`calculateSizes` (all dimensions there are non-negative, where the C++
truncated `%` agrees with `Nat.mod`). -/
def natAdjustDimension (dimension blockDimension : ℕ) : ℕ :=
  if blockDimension = 0 then dimension
  else dimension - dimension % blockDimension

/-- Embedding of `Histogram::calculateSizes`: recomputes every derived
plane/block-geometry field and the kernel launch ranges from `imgWidth`,
`imgHeight`, `blockWidth`, `blockHeight` (all divisions are C++ integer
divisions). -/
def HistogramState.calculateSizes (s : HistogramState) : HistogramState :=
  let ySize := s.imgWidth * s.imgHeight
  let uSize := (s.imgWidth / 2) * (s.imgHeight / 2)
  let vSize := (s.imgWidth / 2) * (s.imgHeight / 2)
  let yBlockWidth := s.blockWidth
  let yBlockHeight := s.blockHeight
  let uBlockWidth := s.blockWidth / 2
  let uBlockHeight := s.blockHeight / 2
  let vBlockWidth := s.blockWidth / 2
  let vBlockHeight := s.blockHeight / 2
  { s with
    ySize := ySize
    uSize := uSize
    vSize := vSize
    imageSize := ySize + uSize + vSize
    yBlockWidth := yBlockWidth
    yBlockHeight := yBlockHeight
    yBlockSize := yBlockWidth * yBlockHeight
    yNumOfBlocks := (s.imgWidth / yBlockWidth) * (s.imgHeight / yBlockHeight)
    uBlockWidth := uBlockWidth
    uBlockHeight := uBlockHeight
    uBlockSize := uBlockWidth * uBlockHeight
    uNumOfBlocks := ((s.imgWidth / 2) / uBlockWidth) * ((s.imgHeight / 2) / uBlockHeight)
    vBlockWidth := vBlockWidth
    vBlockHeight := vBlockHeight
    vBlockSize := vBlockWidth * vBlockHeight
    vNumOfBlocks := ((s.imgWidth / 2) / vBlockWidth) * ((s.imgHeight / 2) / vBlockHeight)
    globalRange := (natAdjustDimension (s.imgWidth / 2) (yBlockWidth / 2),
                    natAdjustDimension (s.imgHeight / 2) (yBlockHeight / 2))
    localRange := (yBlockWidth / 2, yBlockHeight / 2) }

/-- Embedding of `Histogram::createOutputVectors`: reallocates every result
vector at its current geometry (`std::vector<T>(n)` value-initialises, so the
fresh vectors are zero-filled). -/
def HistogramState.createOutputVectors (s : HistogramState) : HistogramState :=
  { s with
    yAverage := List.replicate s.yNumOfBlocks 0
    uAverage := List.replicate s.uNumOfBlocks 0
    vAverage := List.replicate s.vNumOfBlocks 0
    yVariance := List.replicate s.yNumOfBlocks 0
    uVariance := List.replicate s.uNumOfBlocks 0
    vVariance := List.replicate s.vNumOfBlocks 0
    yAverageBins := List.replicate s.numOfBins 0
    uAverageBins := List.replicate s.numOfBins 0
    vAverageBins := List.replicate s.numOfBins 0
    yVarianceBins := List.replicate s.numOfBins 0
    uVarianceBins := List.replicate s.numOfBins 0
    vVarianceBins := List.replicate s.numOfBins 0 }

/-- Embedding of `Histogram::createInputBuffers`: allocates OpenCL input
buffers, which have no modelled fields. -/
def HistogramState.createInputBuffers (s : HistogramState) : HistogramState := s

/-- Embedding of `Histogram::createOutputBuffers`: allocates OpenCL output
buffers and copies the (zero) histogram vectors into them; no modelled
field changes. -/
def HistogramState.createOutputBuffers (s : HistogramState) : HistogramState := s

/-- Embedding of `Histogram::setImageSize`: stores the new image dimensions,
then recalculates sizes and resets buffers and vectors
(`calculateSizes(); createInputBuffers(); createOutputVectors();
createOutputBuffers();`). -/
def HistogramState.setImageSize (imgWidth imgHeight : ℕ) (s : HistogramState) :
    HistogramState :=
  ({ s with imgWidth := imgWidth, imgHeight := imgHeight
   }.calculateSizes.createInputBuffers.createOutputVectors.createOutputBuffers)

/-- Embedding of `Histogram::setBlockSize`: stores the new block dimensions,
then recalculates sizes and resets the output vectors and buffers. -/
def HistogramState.setBlockSize (blockWidth blockHeight : ℕ) (s : HistogramState) :
    HistogramState :=
  ({ s with blockWidth := blockWidth, blockHeight := blockHeight
   }.calculateSizes.createOutputVectors.createOutputBuffers)

/-- Embedding of `Histogram::setNumofBins`: stores the new bin count and
does nothing else. -/
def HistogramState.setNumofBins (numOfBins : ℕ) (s : HistogramState) :
    HistogramState :=
  { s with numOfBins := numOfBins }

/-- Embedding of `Histogram::calculateHistograms(Detail)`.  The guard
`if (!environmentSetUp) { std::cout << "Environment not set up"; return; }`
is modelled exactly; past the guard the call resets `elapsedTime` and drives
the OpenCL kernel — the kernel source (`histogram_kernel.cl`) is not part of
the repository, so the dispatch/read-back is an opaque parameter `device`
returning the updated state and any diagnostic messages.  The second
component collects the console diagnostics of the call. -/
def HistogramState.calculateHistogramsStep
    (device : HDetail → HistogramState → HistogramState × List String)
    (detail : HDetail) (s : HistogramState) : HistogramState × List String :=
  if s.environmentSetUp then device detail { s with elapsedTime := 0 }
  else (s, ["Environment not set up"])

/-- Embedding of `Histogram::getAverage(Channel)` (enum interface). -/
def HistogramState.getAverage (s : HistogramState) (channel : HChannel) : List ℚ :=
  if channel = HChannel.Y then s.yAverage
  else if channel = HChannel.U then s.uAverage
  else if channel = HChannel.V then s.vAverage
  else s.yAverage

/-- Embedding of `Histogram::getVariance(Channel)` (enum interface). -/
def HistogramState.getVariance (s : HistogramState) (channel : HChannel) : List ℚ :=
  if channel = HChannel.Y then s.yVariance
  else if channel = HChannel.U then s.uVariance
  else if channel = HChannel.V then s.vVariance
  else s.yVariance

/-- Embedding of `Histogram::getAverageHistogram(Channel)` (enum interface). -/
def HistogramState.getAverageHistogram (s : HistogramState) (channel : HChannel) :
    List ℤ :=
  if channel = HChannel.Y then s.yAverageBins
  else if channel = HChannel.U then s.uAverageBins
  else if channel = HChannel.V then s.vAverageBins
  else s.yAverageBins

/-- Embedding of `Histogram::getVarianceHistogram(Channel)` (enum interface). -/
def HistogramState.getVarianceHistogram (s : HistogramState) (channel : HChannel) :
    List ℤ :=
  if channel = HChannel.Y then s.yVarianceBins
  else if channel = HChannel.U then s.uVarianceBins
  else if channel = HChannel.V then s.vVarianceBins
  else s.yVarianceBins

/-- Embedding of `Histogram::getElapsedTime()` (enum interface). -/
def HistogramState.getElapsedTime (s : HistogramState) : ℚ :=
  s.elapsedTime

/-! ## The `Histogram` class (`histogram.cpp` at the repository root,
string-selector interface)

This older copy of the library keeps one result set per channel plus one
elapsed time per channel, and its getters select the channel with string
comparisons, falling through to the Y data.  `varhist` is `float` here. -/

/-- Modelled result fields of the `Histogram` class from the root
`histogram.cpp`. -/
structure StringHistogramState : Type where
  yAverage : List ℚ
  uAverage : List ℚ
  vAverage : List ℚ
  yVariance : List ℚ
  uVariance : List ℚ
  vVariance : List ℚ
  yAverageBins : List ℤ
  uAverageBins : List ℤ
  vAverageBins : List ℤ
  yVarianceBins : List ℚ
  uVarianceBins : List ℚ
  vVarianceBins : List ℚ
  yElapsedTime : ℚ
  uElapsedTime : ℚ
  vElapsedTime : ℚ
deriving DecidableEq

/-- Embedding of `Histogram::getAverage(std::string)`. -/
def StringHistogramState.getAverage (s : StringHistogramState) (channel : String) :
    List ℚ :=
  if channel = "Y" then s.yAverage
  else if channel = "U" then s.uAverage
  else if channel = "V" then s.vAverage
  else s.yAverage

/-- Embedding of `Histogram::getVariance(std::string)`. -/
def StringHistogramState.getVariance (s : StringHistogramState) (channel : String) :
    List ℚ :=
  if channel = "Y" then s.yVariance
  else if channel = "U" then s.uVariance
  else if channel = "V" then s.vVariance
  else s.yVariance

/-- Embedding of `Histogram::getAverageHistogram(std::string)`. -/
def StringHistogramState.getAverageHistogram (s : StringHistogramState)
    (channel : String) : List ℤ :=
  if channel = "Y" then s.yAverageBins
  else if channel = "U" then s.uAverageBins
  else if channel = "V" then s.vAverageBins
  else s.yAverageBins

/-- Embedding of `Histogram::getVarianceHistogram(std::string)`. -/
def StringHistogramState.getVarianceHistogram (s : StringHistogramState)
    (channel : String) : List ℚ :=
  if channel = "Y" then s.yVarianceBins
  else if channel = "U" then s.uVarianceBins
  else if channel = "V" then s.vVarianceBins
  else s.yVarianceBins

/-- Embedding of `Histogram::getElapsedTime(std::string)`. -/
def StringHistogramState.getElapsedTime (s : StringHistogramState)
    (channel : String) : ℚ :=
  if channel = "Y" then s.yElapsedTime
  else if channel = "U" then s.uElapsedTime
  else if channel = "V" then s.vElapsedTime
  else s.yElapsedTime

/-- Modelled state produced by the default constructor `Histogram::Histogram()`
in `src/histogram.cpp`: full-HD image, 8x8 blocks, 16 bins, YUV, chromatic,
errors hidden, `elapsedTime = 0` and `environmentSetUp = false`.  The derived
geometry fields and result vectors are not initialised by the constructor
(modelled as zero / empty). -/
def HistogramState.init : HistogramState where
  environmentSetUp := false
  imgWidth := 1920
  imgHeight := 1080
  blockWidth := 8
  blockHeight := 8
  numOfBins := 16
  format := HFormat.YUV
  color := HColor.Chromatic
  showErrors := false
  ySize := 0
  uSize := 0
  vSize := 0
  imageSize := 0
  yBlockWidth := 0
  yBlockHeight := 0
  yBlockSize := 0
  yNumOfBlocks := 0
  uBlockWidth := 0
  uBlockHeight := 0
  uBlockSize := 0
  uNumOfBlocks := 0
  vBlockWidth := 0
  vBlockHeight := 0
  vBlockSize := 0
  vNumOfBlocks := 0
  globalRange := (0, 0)
  localRange := (0, 0)
  yAverage := []
  uAverage := []
  vAverage := []
  yVariance := []
  uVariance := []
  vVariance := []
  yAverageBins := []
  uAverageBins := []
  vAverageBins := []
  yVarianceBins := []
  uVarianceBins := []
  vVarianceBins := []
  elapsedTime := 0

/-- Sample per-channel result state for the string-selector interface, with
distinct data per channel. -/
def StringHistogramState.sample : StringHistogramState where
  yAverage := [1]
  uAverage := [2]
  vAverage := [3]
  yVariance := [4]
  uVariance := [5]
  vVariance := [6]
  yAverageBins := [7]
  uAverageBins := [8]
  vAverageBins := [9]
  yVarianceBins := [10]
  uVarianceBins := [11]
  vVarianceBins := [12]
  yElapsedTime := 13
  uElapsedTime := 14
  vElapsedTime := 15

/-! ## C3: dimension adjustment -/

/-- C3 (counterexample): the claim quantifies over every integer dimension,
but for the negative dimension `-1` with block dimension `2` the code
returns `-1 - (-1 % 2) = -1 - (-1) = 0` (C++ `%` truncates toward zero), so
`d - adjustDimension(d, b) = -1 < 0` and the claimed inequality
`0 <= d - adjustDimension(d, b)` fails. -/
theorem adjustDimension_negative_dimension_counterexample :
    Histogram.adjustDimension (-1) 2 = 0 ∧
      ¬ (0 ≤ (-1 : ℤ) - Histogram.adjustDimension (-1) 2) := by
  decide

/-- C3 (amended): for every non-negative dimension `d` and block dimension
`b > 0`, both `adjustDimension` variants return `d - (d % b)` (C++ truncated
remainder) and `0 <= d - adjustDimension(d, b) < b`; for `b = 0` the guarded
`Histogram::adjustDimension` returns the dimension unchanged (the utility
variant in `histogram_driver_util.hpp` has no guard, and a zero divisor is
undefined behaviour in C++). -/
theorem adjustDimension_adjusts_nonneg_dimensions (d b : ℤ) (hd : 0 ≤ d) :
    (0 < b →
      Histogram.adjustDimension d b = d - Int.tmod d b ∧
      adjustDimension d b = d - Int.tmod d b ∧
      0 ≤ d - Histogram.adjustDimension d b ∧
      d - Histogram.adjustDimension d b < b) ∧
    Histogram.adjustDimension d 0 = d := by
  constructor
  · intro hb
    have hbne : b ≠ 0 := ne_of_gt hb
    have htmod : Int.tmod d b = d % b := Int.tmod_eq_emod hd (le_of_lt hb)
    have hsub : d - (d - Int.tmod d b) = Int.tmod d b := by ring
    refine ⟨by simp [Histogram.adjustDimension, hbne], rfl, ?_, ?_⟩
    · rw [Histogram.adjustDimension, if_neg hbne, hsub, htmod]
      exact Int.emod_nonneg d hbne
    · rw [Histogram.adjustDimension, if_neg hbne, hsub, htmod]
      exact Int.emod_lt_of_pos d hb
  · simp [Histogram.adjustDimension]

/-- Witness for C3's amended theorem at `d = 7`, `b = 3`. -/
theorem adjustDimension_adjusts_nonneg_dimensions_witness :
    (0 ≤ (7 : ℤ)) ∧
    ((0 < (3 : ℤ) →
      Histogram.adjustDimension 7 3 = 7 - Int.tmod 7 3 ∧
      adjustDimension 7 3 = 7 - Int.tmod 7 3 ∧
      0 ≤ 7 - Histogram.adjustDimension 7 3 ∧
      7 - Histogram.adjustDimension 7 3 < 3) ∧
    Histogram.adjustDimension 7 0 = 7) :=
  ⟨by decide, adjustDimension_adjusts_nonneg_dimensions 7 3 (by decide)⟩

/-! ## C8: computing before preparation is a no-op -/

/-- C8: on a `Histogram` object whose environment has not been set up,
`calculateHistograms` reports "Environment not set up" and changes nothing:
the state is returned unchanged — in particular every getter
(average, variance, both histograms, elapsed time) returns exactly what it
returned before the call — for any detail mode and any behaviour of the
OpenCL dispatch. -/
theorem calculateHistograms_before_setup_is_noop
    (device : HDetail → HistogramState → HistogramState × List String)
    (detail : HDetail) (s : HistogramState)
    (h : s.environmentSetUp = false) :
    s.calculateHistogramsStep device detail = (s, ["Environment not set up"]) ∧
    (∀ c, ((s.calculateHistogramsStep device detail).1).getAverage c =
      s.getAverage c) ∧
    (∀ c, ((s.calculateHistogramsStep device detail).1).getVariance c =
      s.getVariance c) ∧
    (∀ c, ((s.calculateHistogramsStep device detail).1).getAverageHistogram c =
      s.getAverageHistogram c) ∧
    (∀ c, ((s.calculateHistogramsStep device detail).1).getVarianceHistogram c =
      s.getVarianceHistogram c) ∧
    ((s.calculateHistogramsStep device detail).1).getElapsedTime =
      s.getElapsedTime := by
  simp [HistogramState.calculateHistogramsStep, h]

/-- Witness for C8 on the default-constructed state, with a dispatch model
that overwrites everything it can. -/
theorem calculateHistograms_before_setup_is_noop_witness :
    (HistogramState.init.environmentSetUp = false) ∧
    (HistogramState.init.calculateHistogramsStep
        (fun _ t => ({ t with yAverage := [99], elapsedTime := 42 }, []))
        HDetail.Include =
      (HistogramState.init, ["Environment not set up"]) ∧
    (∀ c, ((HistogramState.init.calculateHistogramsStep
        (fun _ t => ({ t with yAverage := [99], elapsedTime := 42 }, []))
        HDetail.Include).1).getAverage c = HistogramState.init.getAverage c) ∧
    (∀ c, ((HistogramState.init.calculateHistogramsStep
        (fun _ t => ({ t with yAverage := [99], elapsedTime := 42 }, []))
        HDetail.Include).1).getVariance c = HistogramState.init.getVariance c) ∧
    (∀ c, ((HistogramState.init.calculateHistogramsStep
        (fun _ t => ({ t with yAverage := [99], elapsedTime := 42 }, []))
        HDetail.Include).1).getAverageHistogram c =
      HistogramState.init.getAverageHistogram c) ∧
    (∀ c, ((HistogramState.init.calculateHistogramsStep
        (fun _ t => ({ t with yAverage := [99], elapsedTime := 42 }, []))
        HDetail.Include).1).getVarianceHistogram c =
      HistogramState.init.getVarianceHistogram c) ∧
    ((HistogramState.init.calculateHistogramsStep
        (fun _ t => ({ t with yAverage := [99], elapsedTime := 42 }, []))
        HDetail.Include).1).getElapsedTime =
      HistogramState.init.getElapsedTime) :=
  ⟨rfl, calculateHistograms_before_setup_is_noop _ HDetail.Include
    HistogramState.init rfl⟩

/-! ## C9: `setNumofBins` frame effect -/

/-- C9: `setNumofBins` changes only the stored bin-count field — every
result vector (which keeps its previous length), every derived geometry
field and the launch ranges stay exactly as they were — whereas
`setImageSize` and `setBlockSize` immediately regenerate the geometry and
reallocate every result vector at the new geometry. -/
theorem setNumofBins_only_changes_bin_count (s : HistogramState)
    (n w h bw bh : ℕ) :
    (s.setNumofBins n).numOfBins = n ∧
    (s.setNumofBins n).yAverage = s.yAverage ∧
    (s.setNumofBins n).uAverage = s.uAverage ∧
    (s.setNumofBins n).vAverage = s.vAverage ∧
    (s.setNumofBins n).yVariance = s.yVariance ∧
    (s.setNumofBins n).uVariance = s.uVariance ∧
    (s.setNumofBins n).vVariance = s.vVariance ∧
    (s.setNumofBins n).yAverageBins = s.yAverageBins ∧
    (s.setNumofBins n).uAverageBins = s.uAverageBins ∧
    (s.setNumofBins n).vAverageBins = s.vAverageBins ∧
    (s.setNumofBins n).yVarianceBins = s.yVarianceBins ∧
    (s.setNumofBins n).uVarianceBins = s.uVarianceBins ∧
    (s.setNumofBins n).vVarianceBins = s.vVarianceBins ∧
    (s.setNumofBins n).yAverageBins.length = s.yAverageBins.length ∧
    (s.setNumofBins n).ySize = s.ySize ∧
    (s.setNumofBins n).uSize = s.uSize ∧
    (s.setNumofBins n).vSize = s.vSize ∧
    (s.setNumofBins n).imageSize = s.imageSize ∧
    (s.setNumofBins n).yBlockWidth = s.yBlockWidth ∧
    (s.setNumofBins n).yBlockHeight = s.yBlockHeight ∧
    (s.setNumofBins n).yBlockSize = s.yBlockSize ∧
    (s.setNumofBins n).yNumOfBlocks = s.yNumOfBlocks ∧
    (s.setNumofBins n).uBlockSize = s.uBlockSize ∧
    (s.setNumofBins n).uNumOfBlocks = s.uNumOfBlocks ∧
    (s.setNumofBins n).vBlockSize = s.vBlockSize ∧
    (s.setNumofBins n).vNumOfBlocks = s.vNumOfBlocks ∧
    (s.setNumofBins n).globalRange = s.globalRange ∧
    (s.setNumofBins n).localRange = s.localRange ∧
    (s.setNumofBins n).elapsedTime = s.elapsedTime ∧
    (s.setNumofBins n).environmentSetUp = s.environmentSetUp ∧
    ((s.setImageSize w h).yNumOfBlocks =
      (w / s.blockWidth) * (h / s.blockHeight) ∧
    (s.setImageSize w h).yAverage =
      List.replicate ((w / s.blockWidth) * (h / s.blockHeight)) 0 ∧
    (s.setImageSize w h).yAverageBins = List.replicate s.numOfBins 0 ∧
    (s.setBlockSize bw bh).yBlockSize = bw * bh ∧
    (s.setBlockSize bw bh).yAverage =
      List.replicate ((s.imgWidth / bw) * (s.imgHeight / bh)) 0 ∧
    (s.setBlockSize bw bh).yAverageBins = List.replicate s.numOfBins 0) := by
  refine ⟨rfl, rfl, rfl, rfl, rfl, rfl, rfl, rfl, rfl, rfl, rfl, rfl, rfl,
    rfl, rfl, rfl, rfl, rfl, rfl, rfl, rfl, rfl, rfl, rfl, rfl, rfl, rfl,
    rfl, rfl, rfl, ?_, ?_, ?_, ?_, ?_, ?_⟩ <;>
    simp [HistogramState.setImageSize, HistogramState.setBlockSize,
      HistogramState.calculateSizes, HistogramState.createInputBuffers,
      HistogramState.createOutputVectors, HistogramState.createOutputBuffers]

/-! ## C10: string channel selectors fall back to Y -/

/-- C10: for any channel-selector string other than "Y", "U" or "V", every
getter of the string interface falls through its comparison chain and
returns the Y-channel data (it does not fail and does not return an empty
result distinct from the Y data). -/
theorem string_getters_fall_back_to_Y (s : StringHistogramState)
    (channel : String)
    (hy : channel ≠ "Y") (hu : channel ≠ "U") (hv : channel ≠ "V") :
    s.getAverage channel = s.getAverage "Y" ∧
    s.getVariance channel = s.getVariance "Y" ∧
    s.getAverageHistogram channel = s.getAverageHistogram "Y" ∧
    s.getVarianceHistogram channel = s.getVarianceHistogram "Y" ∧
    s.getElapsedTime channel = s.getElapsedTime "Y" := by
  simp [StringHistogramState.getAverage, StringHistogramState.getVariance,
    StringHistogramState.getAverageHistogram,
    StringHistogramState.getVarianceHistogram,
    StringHistogramState.getElapsedTime, hy, hu, hv]

/-- Witness for C10 at the selector string "A" on a state with distinct
per-channel data. -/
theorem string_getters_fall_back_to_Y_witness :
    ("A" ≠ "Y") ∧
    (StringHistogramState.sample.getAverage "A" =
      StringHistogramState.sample.getAverage "Y" ∧
    StringHistogramState.sample.getVariance "A" =
      StringHistogramState.sample.getVariance "Y" ∧
    StringHistogramState.sample.getAverageHistogram "A" =
      StringHistogramState.sample.getAverageHistogram "Y" ∧
    StringHistogramState.sample.getVarianceHistogram "A" =
      StringHistogramState.sample.getVarianceHistogram "Y" ∧
    StringHistogramState.sample.getElapsedTime "A" =
      StringHistogramState.sample.getElapsedTime "Y") :=
  ⟨by decide, string_getters_fall_back_to_Y StringHistogramState.sample "A"
    (by decide) (by decide) (by decide)⟩

/-! ## C6: equivalence validator -/

/-- The error-accumulation loop of `validateVectorError` computes the sum of
the relative deviations over exactly the indices whose reference value is
non-zero. -/
lemma validate_foldl_eq_filter_sum (input validatingVector : List ℚ)
    (n : ℕ) (init : ℚ) :
    (List.range n).foldl
      (fun sum i =>
        if validatingVector.getD i 0 ≠ 0 then
          sum + |validatingVector.getD i 0 - input.getD i 0| /
            validatingVector.getD i 0
        else sum) init =
    init + ∑ i ∈ (Finset.range n).filter
        (fun i => validatingVector.getD i 0 ≠ 0),
      |validatingVector.getD i 0 - input.getD i 0| /
        validatingVector.getD i 0 := by
  induction n with
  | zero => simp
  | succ n ih =>
    rw [List.range_succ, List.foldl_append, ih, List.foldl_cons, List.foldl_nil,
      Finset.range_succ, Finset.filter_insert]
    by_cases hp : validatingVector.getD n 0 ≠ 0
    · rw [if_pos hp, if_pos hp, Finset.sum_insert (by simp)]
      ring
    · rw [if_neg hp, if_neg hp]

/-- C6: the validator's error value is exactly the spec's metric — the sum of
`|reference[i] - candidate[i]| / reference[i]` over the indices with
`reference[i] != 0` only, divided by the full vector length and multiplied
by 100; identical vectors give error 0 and classification Pass; and if a
single index with a non-zero reference value differs by exactly the
reference value while all other entries agree, the error is `100 / length`
percent. -/
theorem validateVectorError_metric (input validatingVector : List ℚ)
    (hlen : input.length = validatingVector.length) :
    validateVectorErrorValue input validatingVector =
      specValidationError input validatingVector ∧
    (input = validatingVector →
      validateVectorErrorValue input validatingVector = 0 ∧
      validateVectorErrorResult input validatingVector =
        ValidationResult.Pass) ∧
    (∀ i0 : ℕ, i0 < input.length →
      validatingVector.getD i0 0 ≠ 0 →
      |validatingVector.getD i0 0 - input.getD i0 0| =
        validatingVector.getD i0 0 →
      (∀ j : ℕ, j < input.length → j ≠ i0 →
        input.getD j 0 = validatingVector.getD j 0) →
      validateVectorErrorValue input validatingVector =
        100 / (input.length : ℚ)) := by
  refine ⟨?_, ?_, ?_⟩
  · rw [validateVectorErrorValue, validate_foldl_eq_filter_sum,
      specValidationError, zero_add]
  · intro heq
    subst heq
    have hval : validateVectorErrorValue input input = 0 := by
      rw [validateVectorErrorValue, validate_foldl_eq_filter_sum, zero_add]
      rw [Finset.sum_eq_zero (fun i _ => by simp)]
      simp
    exact ⟨hval, by rw [validateVectorErrorResult, hval]; simp⟩
  · intro i0 hi0 hne hdiff hrest
    rw [validateVectorErrorValue, validate_foldl_eq_filter_sum, zero_add]
    have hsum : ∑ i ∈ (Finset.range input.length).filter
        (fun i => validatingVector.getD i 0 ≠ 0),
        |validatingVector.getD i 0 - input.getD i 0| /
          validatingVector.getD i 0 = 1 := by
      rw [Finset.sum_eq_single i0]
      · rw [hdiff, div_self hne]
      · intro j hj hji0
        rw [Finset.mem_filter, Finset.mem_range] at hj
        rw [hrest j hj.1 hji0, sub_self, abs_zero, zero_div]
      · intro habs
        exact absurd (Finset.mem_filter.2 ⟨Finset.mem_range.2 hi0, hne⟩) habs
    rw [hsum]
    ring

/-- Witness for C6 with candidate `[0]` against reference `[1]`. -/
theorem validateVectorError_metric_witness :
    ([(0 : ℚ)].length = [(1 : ℚ)].length) ∧
    (validateVectorErrorValue [(0 : ℚ)] [(1 : ℚ)] =
      specValidationError [(0 : ℚ)] [(1 : ℚ)] ∧
    ([(0 : ℚ)] = [(1 : ℚ)] →
      validateVectorErrorValue [(0 : ℚ)] [(1 : ℚ)] = 0 ∧
      validateVectorErrorResult [(0 : ℚ)] [(1 : ℚ)] = ValidationResult.Pass) ∧
    (∀ i0 : ℕ, i0 < [(0 : ℚ)].length →
      [(1 : ℚ)].getD i0 0 ≠ 0 →
      |[(1 : ℚ)].getD i0 0 - [(0 : ℚ)].getD i0 0| = [(1 : ℚ)].getD i0 0 →
      (∀ j : ℕ, j < [(0 : ℚ)].length → j ≠ i0 →
        [(0 : ℚ)].getD j 0 = [(1 : ℚ)].getD j 0) →
      validateVectorErrorValue [(0 : ℚ)] [(1 : ℚ)] =
        100 / ([(0 : ℚ)].length : ℚ))) :=
  ⟨rfl, validateVectorError_metric [(0 : ℚ)] [(1 : ℚ)] rfl⟩

/-! ## Histogram binner lemmas (C2, C5, C7) -/

lemma getD_set_self {M : Type} (l : List M) (i : ℕ) (a d : M)
    (h : i < l.length) : (l.set i a).getD i d = a := by
  simp [List.getD_eq_getElem?_getD, List.getElem?_set, h]

lemma getD_set_ne {M : Type} (l : List M) (i j : ℕ) (a d : M)
    (h : i ≠ j) : (l.set i a).getD j d = l.getD j d := by
  simp [List.getD_eq_getElem?_getD, List.getElem?_set, h]

lemma sum_set_add_getD {M : Type} [AddCommMonoid M] (l : List M) :
    ∀ (i : ℕ) (a : M), i < l.length →
      (l.set i a).sum + l.getD i 0 = l.sum + a := by
  induction l with
  | nil => intro i a h; simp at h
  | cons x xs ih =>
    intro i a h
    cases i with
    | zero =>
      simp only [List.set_cons_zero, List.sum_cons, List.getD_cons_zero]
      simp [add_comm, add_left_comm, add_assoc]
    | succ i =>
      simp only [List.set_cons_succ, List.sum_cons, List.getD_cons_succ]
      rw [add_assoc, ih i a (by simpa using h), add_assoc]

lemma binUpdate_length {M : Type} [Zero M] [Add M] (bins : List M)
    (interval : ℤ) (w : M) :
    (binUpdate bins interval w).length = bins.length := by
  rw [binUpdate]
  split <;> simp

/-- Effect of one histogram-loop iteration on bin `k`: if the value's bin is
`k` the weight is added, otherwise bin `k` is untouched. -/
lemma binUpdate_getD {M : Type} [AddCommMonoid M] (bins : List M)
    (interval : ℤ) (w : M) (k : ℕ) (h0 : 0 ≤ interval)
    (hlt : interval.toNat < bins.length) :
    (binUpdate bins interval w).getD k 0 =
      if interval = (k : ℤ) then bins.getD k 0 + w else bins.getD k 0 := by
  rw [binUpdate, if_pos h0]
  by_cases hk : interval = (k : ℤ)
  · have htn : interval.toNat = k := by rw [hk]; exact Int.toNat_natCast k
    rw [if_pos hk, htn, getD_set_self _ _ _ _ (htn ▸ hlt)]
  · have htn : interval.toNat ≠ k := by
      intro habs
      exact hk (by rw [← habs, Int.toNat_of_nonneg h0])
    rw [if_neg hk, getD_set_ne _ _ _ _ _ htn]

/-- The histogram accumulation loop, read at one bin: the final content of
bin `k` is its initial content plus the accumulated weights of exactly the
entries whose bin index is `k`. -/
lemma foldl_binUpdate_getD {A M : Type} [AddCommMonoid M] (f : A → ℤ)
    (g : A → M) (ps : List A) (k : ℕ) :
    ∀ bins : List M,
      (∀ p ∈ ps, 0 ≤ f p ∧ (f p).toNat < bins.length) → k < bins.length →
      (ps.foldl (fun b p => binUpdate b (f p) (g p)) bins).getD k 0 =
        bins.getD k 0 + ((ps.filter (fun p => f p = (k : ℤ))).map g).sum := by
  induction ps with
  | nil => intro bins _ _; simp
  | cons p ps ih =>
    intro bins hin hk
    have hp := hin p (List.mem_cons_self p ps)
    have hlen : (binUpdate bins (f p) (g p)).length = bins.length :=
      binUpdate_length _ _ _
    rw [List.foldl_cons,
      ih (binUpdate bins (f p) (g p))
        (fun q hq => hlen ▸ hin q (List.mem_cons_of_mem p hq)) (hlen ▸ hk),
      binUpdate_getD bins (f p) (g p) k hp.1 hp.2]
    by_cases hfk : f p = (k : ℤ)
    · rw [if_pos hfk, List.filter_cons_of_pos (by simpa using hfk),
        List.map_cons, List.sum_cons]
      rw [add_assoc, add_comm (g p)]
    · rw [if_neg hfk, List.filter_cons_of_neg (by simpa using hfk)]

/-- The histogram accumulation loop, read globally: the total over all bins
grows by the total of the accumulated weights. -/
lemma foldl_binUpdate_sum {A M : Type} [AddCommGroup M] (f : A → ℤ)
    (g : A → M) (ps : List A) :
    ∀ bins : List M,
      (∀ p ∈ ps, 0 ≤ f p ∧ (f p).toNat < bins.length) →
      (ps.foldl (fun b p => binUpdate b (f p) (g p)) bins).sum =
        bins.sum + (ps.map g).sum := by
  induction ps with
  | nil => intro bins _; simp
  | cons p ps ih =>
    intro bins hin
    have hp := hin p (List.mem_cons_self p ps)
    have hlen : (binUpdate bins (f p) (g p)).length = bins.length :=
      binUpdate_length _ _ _
    rw [List.foldl_cons,
      ih (binUpdate bins (f p) (g p))
        (fun q hq => hlen ▸ hin q (List.mem_cons_of_mem p hq)),
      List.map_cons, List.sum_cons]
    have hupd : (binUpdate bins (f p) (g p)).sum = bins.sum + g p := by
      have hset := sum_set_add_getD bins (f p).toNat
        (bins.getD (f p).toNat 0 + g p) hp.2
      rw [binUpdate, if_pos hp.1, eq_sub_of_add_eq hset]
      abel
    rw [hupd, add_assoc, add_comm (g p)]

lemma binInterval_of_nonneg (v : ℚ) (b : ℕ) (h0 : 0 ≤ v) :
    binInterval v b = ⌊v / (b : ℚ)⌋ := by
  have hq : 0 ≤ v / (b : ℚ) := div_nonneg h0 (by positivity)
  simp [binInterval, cppTruncToInt, hq]

/-- With a bin count dividing 256 and a value in the contract range
`[0, 256)`, the computed bin index is a valid index below `numOfBins`. -/
lemma binInterval_valid (v : ℚ) (numOfBins : ℕ) (hn : 0 < numOfBins)
    (hdvd : numOfBins ∣ 256) (h0 : 0 ≤ v) (hlt : v < 256) :
    0 ≤ binInterval v (256 / numOfBins) ∧
      (binInterval v (256 / numOfBins)).toNat < numOfBins := by
  have hbpos : 0 < 256 / numOfBins :=
    Nat.div_pos (Nat.le_of_dvd (by norm_num) hdvd) hn
  have hb : (0 : ℚ) < ((256 / numOfBins : ℕ) : ℚ) := by exact_mod_cast hbpos
  rw [binInterval_of_nonneg _ _ h0]
  have hfl0 : 0 ≤ ⌊v / ((256 / numOfBins : ℕ) : ℚ)⌋ :=
    Int.floor_nonneg.2 (div_nonneg h0 hb.le)
  refine ⟨hfl0, ?_⟩
  rw [Int.toNat_lt hfl0, Int.floor_lt, div_lt_iff₀ hb]
  have hmul : (numOfBins : ℚ) * ((256 / numOfBins : ℕ) : ℚ) = 256 := by
    exact_mod_cast Nat.mul_div_cancel' hdvd
  push_cast
  rw [hmul]
  exact hlt

/-! ## C2: variance-weighted histogram -/

/-- C2: the weighted `calculateHistogram` overload selects the bin from the
block's average — bin index `⌊average / (256 / numBins)⌋` with `256/numBins`
the integer bin width — but accumulates the block's variance: after the
call, bin `k` holds its previous content plus the sum of the variances of
exactly those blocks whose average falls in bin `k`.  (Hypotheses per the
caller contract of the spec: averages lie in `[0, 256)`, the bin count
divides 256, and the bins vector has `numOfBins` entries.) -/
theorem weighted_histogram_bins_by_average_accumulates_variance
    (input increment bins : List ℚ) (numOfBins k : ℕ)
    (hlen : increment.length = input.length)
    (hbins : bins.length = numOfBins)
    (hn : 0 < numOfBins) (hdvd : numOfBins ∣ 256)
    (hin : ∀ v ∈ input, 0 ≤ v ∧ v < 256)
    (hk : k < numOfBins) :
    (calculateHistogramWeighted input numOfBins bins increment).getD k 0 =
      bins.getD k 0 +
        (((input.zip increment).filter
            (fun p => binInterval p.1 (256 / numOfBins) = (k : ℤ))).map
          Prod.snd).sum ∧
    ∀ v ∈ input,
      binInterval v (256 / numOfBins) = ⌊v / ((256 / numOfBins : ℕ) : ℚ)⌋ := by
  constructor
  · have hcond : ∀ p ∈ input.zip increment,
        0 ≤ binInterval p.1 (256 / numOfBins) ∧
          (binInterval p.1 (256 / numOfBins)).toNat < bins.length := by
      intro p hp
      have hv := hin p.1 (List.of_mem_zip hp).1
      have hvalid := binInterval_valid p.1 numOfBins hn hdvd hv.1 hv.2
      exact ⟨hvalid.1, by omega⟩
    have hmain := foldl_binUpdate_getD
      (fun p : ℚ × ℚ => binInterval p.1 (256 / numOfBins)) Prod.snd
      (input.zip increment) k bins hcond (by omega)
    simpa [calculateHistogramWeighted] using hmain
  · intro v hv
    exact binInterval_of_nonneg v (256 / numOfBins) (hin v hv).1

/-- Witness for C2 with a single block of average 10 and variance 7 and 16
bins. -/
theorem weighted_histogram_bins_by_average_accumulates_variance_witness :
    (([(7 : ℚ)]).length = ([(10 : ℚ)]).length) ∧
    ((List.replicate 16 (0 : ℚ)).length = 16) ∧
    ((calculateHistogramWeighted [(10 : ℚ)] 16 (List.replicate 16 (0 : ℚ))
        [(7 : ℚ)]).getD 0 0 =
      (List.replicate 16 (0 : ℚ)).getD 0 0 +
        ((([(10 : ℚ)].zip [(7 : ℚ)]).filter
            (fun p => binInterval p.1 (256 / 16) = ((0 : ℕ) : ℤ))).map
          Prod.snd).sum ∧
    ∀ v ∈ [(10 : ℚ)],
      binInterval v (256 / 16) = ⌊v / ((256 / 16 : ℕ) : ℚ)⌋) :=
  ⟨rfl, by decide,
    weighted_histogram_bins_by_average_accumulates_variance
      [(10 : ℚ)] [(7 : ℚ)] (List.replicate 16 (0 : ℚ)) 16 0 rfl (by decide)
      (by decide) (by decide)
      (by intro v hv; rw [List.mem_singleton] at hv; subst hv; norm_num)
      (by decide)⟩

/-! ## C5: average histogram bin counts -/

/-- C5 (counterexample): for the bin count 5 — positive but not dividing
256 — and the single average `511/2 = 255.5 ∈ [0, 256)`, the bin width is
`256/5 = 51` and the computed bin index is `⌊255.5/51⌋ = 5`, one past the
last bin: the increment lands outside the 5-bin vector (out-of-bounds in
C++), so the bin counts sum to 0, not to the number of blocks 1. -/
theorem average_histogram_sum_counterexample :
    (∀ v ∈ [(511 / 2 : ℚ)], 0 ≤ v ∧ v < 256) ∧ 0 < 5 ∧
    (calculateHistogram [(511 / 2 : ℚ)] 5 (List.replicate 5 0)).sum ≠
      ([(511 / 2 : ℚ)].length : ℤ) := by
  refine ⟨?_, by decide, ?_⟩
  · intro v hv
    rw [List.mem_singleton] at hv
    subst hv
    constructor <;> norm_num
  · have h1 : binInterval (511 / 2) (256 / 5) = 5 := by
      have hc : ((256 / 5 : ℕ) : ℚ) = 51 := by norm_num
      rw [binInterval_of_nonneg _ _ (by norm_num), hc]
      norm_num
    simp only [calculateHistogram, List.foldl_cons, List.foldl_nil]
    rw [h1]
    decide

/-- C5 (amended): for every average vector with entries in `[0, 256)` and
every positive bin count that divides 256 evenly, building the unweighted
average histogram into zeroed bins makes the bin counts sum to exactly the
number of blocks. -/
theorem average_histogram_counts_sum_to_blocks (input : List ℚ)
    (numOfBins : ℕ) (hn : 0 < numOfBins) (hdvd : numOfBins ∣ 256)
    (hin : ∀ v ∈ input, 0 ≤ v ∧ v < 256) :
    (calculateHistogram input numOfBins (List.replicate numOfBins 0)).sum =
      (input.length : ℤ) := by
  have hcond : ∀ v ∈ input,
      0 ≤ binInterval v (256 / numOfBins) ∧
        (binInterval v (256 / numOfBins)).toNat <
          (List.replicate numOfBins (0 : ℤ)).length := by
    intro v hv
    have hvi := hin v hv
    have hvalid := binInterval_valid v numOfBins hn hdvd hvi.1 hvi.2
    simpa using hvalid
  have hmain := foldl_binUpdate_sum
    (fun v : ℚ => binInterval v (256 / numOfBins)) (fun _ => (1 : ℤ))
    input (List.replicate numOfBins 0) hcond
  have hones : (input.map (fun _ : ℚ => (1 : ℤ))).sum = (input.length : ℤ) := by
    rw [show (fun _ : ℚ => (1 : ℤ)) = Function.const ℚ 1 from rfl,
      List.map_const, List.sum_replicate, nsmul_eq_mul, mul_one]
  simpa [calculateHistogram, hones] using hmain

/-- Witness for C5's amended theorem: zero blocks, 16 bins, all counts 0. -/
theorem average_histogram_counts_sum_to_blocks_witness :
    (0 < 16) ∧ ((16 : ℕ) ∣ 256) ∧
    ((calculateHistogram ([] : List ℚ) 16 (List.replicate 16 0)).sum =
      (([] : List ℚ).length : ℤ)) :=
  ⟨by decide, by decide,
    average_histogram_counts_sum_to_blocks ([] : List ℚ) 16 (by decide)
      (by decide) (by intro v hv; simp at hv)⟩

/-! ## C7: histogram storage is not zeroed by the computation -/

/-- C7 (counterexample): the reference path's `calculateHistogram` does not
zero the histogram storage before accumulating — computing the histogram of
the same one-block frame twice in succession into the same storage gives
bin counts `[2, 0, ...]`, not the `[1, 0, ...]` of a single computation, so
the results do not depend only on the current frame. -/
theorem histogram_not_zeroed_counterexample :
    calculateHistogram [(0 : ℚ)] 16
        (calculateHistogram [(0 : ℚ)] 16 (List.replicate 16 0)) ≠
      calculateHistogram [(0 : ℚ)] 16 (List.replicate 16 0) := by
  have h1 : binInterval 0 (256 / 16) = 0 := by
    rw [binInterval_of_nonneg _ _ le_rfl]
    norm_num
  simp only [calculateHistogram, List.foldl_cons, List.foldl_nil]
  rw [h1]
  decide

/-- C7 (amended): `calculateHistogram` accumulates on top of whatever the
bins already hold — bin `k` ends at its prior content plus the number of
current-frame blocks falling in bin `k` — so histogram results depend only
on the current frame exactly when the caller supplies freshly zeroed
storage, as the driver does by allocating new vectors; the zeroing is the
caller's responsibility, not the computation's. -/
theorem calculateHistogram_accumulates_on_prior_contents (input : List ℚ)
    (numOfBins : ℕ) (bins : List ℤ) (k : ℕ)
    (hbins : bins.length = numOfBins) (hn : 0 < numOfBins)
    (hdvd : numOfBins ∣ 256) (hin : ∀ v ∈ input, 0 ≤ v ∧ v < 256)
    (hk : k < numOfBins) :
    (calculateHistogram input numOfBins bins).getD k 0 =
      bins.getD k 0 +
        ((input.filter
            (fun v => binInterval v (256 / numOfBins) = (k : ℤ))).length : ℤ) := by
  have hcond : ∀ v ∈ input,
      0 ≤ binInterval v (256 / numOfBins) ∧
        (binInterval v (256 / numOfBins)).toNat < bins.length := by
    intro v hv
    have hvi := hin v hv
    have hvalid := binInterval_valid v numOfBins hn hdvd hvi.1 hvi.2
    exact ⟨hvalid.1, by omega⟩
  have hmain := foldl_binUpdate_getD
    (fun v : ℚ => binInterval v (256 / numOfBins)) (fun _ => (1 : ℤ))
    input k bins hcond (by omega)
  have hones : ((input.filter
      (fun v => binInterval v (256 / numOfBins) = (k : ℤ))).map
        (fun _ : ℚ => (1 : ℤ))).sum =
      ((input.filter
        (fun v => binInterval v (256 / numOfBins) = (k : ℤ))).length : ℤ) := by
    rw [show (fun _ : ℚ => (1 : ℤ)) = Function.const ℚ 1 from rfl,
      List.map_const, List.sum_replicate, nsmul_eq_mul, mul_one]
  rw [calculateHistogram]
  rw [hones] at hmain
  exact hmain

/-- Witness for C7's amended theorem: prior bin contents `[5, 0, ...]` and
an empty frame leave the bins exactly as they were. -/
theorem calculateHistogram_accumulates_on_prior_contents_witness :
    ((5 :: List.replicate 15 (0 : ℤ)).length = 16) ∧
    ((calculateHistogram ([] : List ℚ) 16
        (5 :: List.replicate 15 (0 : ℤ))).getD 0 0 =
      (5 :: List.replicate 15 (0 : ℤ)).getD 0 0 +
        ((([] : List ℚ).filter
            (fun v => binInterval v (256 / 16) = ((0 : ℕ) : ℤ))).length : ℤ)) :=
  ⟨by decide,
    calculateHistogram_accumulates_on_prior_contents ([] : List ℚ) 16
      (5 :: List.replicate 15 (0 : ℤ)) 0 (by decide) (by decide) (by decide)
      (by intro v hv; simp at hv) (by decide)⟩

/-! ## Block traversal lemmas (C1, C4) -/

lemma blockScan_length (imageVector : List ℤ) (iW off bW : ℕ) :
    ∀ (n i j : ℕ), (blockScan imageVector iW off bW n i j).length = n := by
  intro n
  induction n with
  | zero => intro i j; simp [blockScan]
  | succ n ih =>
    intro i j
    rw [blockScan]
    split <;> simp [ih]

/-- Closed form of the inner pixel loop: starting at row `i`, column
`j < blockWidth`, the `p`-th visited pixel is pixel number `i*bW + j + p`
of the block in row-major order. -/
lemma blockScan_eq_map (imageVector : List ℤ) (iW off bW : ℕ) (hbW : 0 < bW) :
    ∀ (n i j : ℕ), j < bW →
      blockScan imageVector iW off bW n i j =
        (List.range n).map (fun p =>
          imageVector.getD
            (((i * bW + j + p) / bW) * iW + (i * bW + j + p) % bW + off) 0) := by
  intro n
  induction n with
  | zero => intro i j _; simp [blockScan]
  | succ n ih =>
    intro i j hj
    rw [List.range_succ_eq_map, List.map_cons, List.map_map, blockScan]
    have hdiv : (i * bW + j + 0) / bW = i := by
      rw [Nat.add_zero, Nat.mul_comm, Nat.mul_add_div hbW,
        Nat.div_eq_of_lt hj, Nat.add_zero]
    have hmod : (i * bW + j + 0) % bW = j := by
      rw [Nat.add_zero, Nat.mul_comm, Nat.mul_add_mod, Nat.mod_eq_of_lt hj]
    rw [hdiv, hmod]
    congr 1
    split
    · next hwrap =>
      rw [ih (i + 1) 0 hbW]
      refine List.map_congr_left (fun p _ => ?_)
      have harg : (i + 1) * bW + 0 + p = i * bW + j + Nat.succ p := by
        rw [← hwrap, Nat.succ_eq_add_one]
        ring
      simp only [Function.comp]
      rw [harg]
    · next hwrap =>
      have hj1 : j + 1 < bW := lt_of_le_of_ne hj hwrap
      rw [ih i (j + 1) hj1]
      refine List.map_congr_left (fun p _ => ?_)
      have harg : i * bW + (j + 1) + p = i * bW + j + Nat.succ p := by
        rw [Nat.succ_eq_add_one]
        ring
      simp only [Function.comp]
      rw [harg]

/-- Scanning one whole block (`blockSize = blockWidth * blockHeight` pixels)
visits exactly the block's rectangle of pixels, row-major. -/
lemma blockScan_eq_blockRect (imageVector : List ℤ) (iW off bW bH : ℕ)
    (hbW : 0 < bW) :
    blockScan imageVector iW off bW (bW * bH) 0 0 =
      blockRect imageVector iW off bW bH := by
  rw [blockScan_eq_map imageVector iW off bW hbW (bW * bH) 0 0 hbW]
  simp only [Nat.zero_mul, Nat.zero_add]
  induction bH with
  | zero => simp [blockRect]
  | succ bH ih =>
    rw [Nat.mul_succ, List.range_add, List.map_append, List.map_map, ih]
    have hsplit : blockRect imageVector iW off bW (bH + 1) =
        blockRect imageVector iW off bW bH ++
          (List.range bW).map (fun j => imageVector.getD (bH * iW + j + off) 0) := by
      rw [blockRect, blockRect, List.range_succ, List.map_append,
        List.map_cons, List.map_nil, List.flatten_append, List.flatten_cons,
        List.flatten_nil, List.append_nil]
    rw [hsplit]
    congr 1
    refine List.map_congr_left (fun p hp => ?_)
    rw [List.mem_range] at hp
    have hdiv : (bW * bH + p) / bW = bH := by
      rw [Nat.mul_add_div hbW, Nat.div_eq_of_lt hp, Nat.add_zero]
    have hmod : (bW * bH + p) % bW = p := by
      rw [Nat.mul_add_mod, Nat.mod_eq_of_lt hp]
    simp only [Function.comp]
    rw [hdiv, hmod]

lemma blockRect_length (imageVector : List ℤ) (iW off bW bH : ℕ) :
    (blockRect imageVector iW off bW bH).length = bW * bH := by
  rw [blockRect, List.length_flatten, List.map_map]
  have : (List.map (List.length ∘ fun i =>
      (List.range bW).map (fun j => imageVector.getD (i * iW + j + off) 0))
        (List.range bH)) = List.replicate bH bW := by
    rw [show (List.length ∘ fun i : ℕ =>
        (List.range bW).map (fun j => imageVector.getD (i * iW + j + off) 0)) =
        Function.const ℕ bW from ?_]
    · rw [List.map_const, List.length_range]
    · funext i
      simp
  rw [this, List.sum_replicate, smul_eq_mul, Nat.mul_comm]

lemma blockPos_zero (iW bW bH : ℕ) : blockPos iW bW bH 0 = (0, 0) := rfl

lemma blockPos_succ (iW bW bH k : ℕ) :
    blockPos iW bW bH (k + 1) =
      nextBlockPos iW bW bH (blockPos iW bW bH k) :=
  Function.iterate_succ_apply' _ _ _

/-- Closed form of the outer-loop cursor: the average/variance loops emit
blocks row-major, `iW / bW` blocks per block-row, when the block width
divides the image width. -/
lemma blockPos_closed (iW bW bH : ℕ) (hbW : 0 < bW) (hdvd : bW ∣ iW)
    (hiW : 0 < iW) :
    ∀ k, blockPos iW bW bH k =
      ((k % (iW / bW)) * bW, (k / (iW / bW)) * bH) := by
  have hc : 0 < iW / bW := Nat.div_pos (Nat.le_of_dvd hiW hdvd) hbW
  have hiWc : (iW / bW) * bW = iW := Nat.div_mul_cancel hdvd
  intro k
  induction k with
  | zero => simp [blockPos_zero, Nat.zero_mod, Nat.zero_div]
  | succ k ih =>
    rw [blockPos_succ, ih, nextBlockPos]
    have hmlt : k % (iW / bW) < iW / bW := Nat.mod_lt k hc
    by_cases hlast : k % (iW / bW) = iW / bW - 1
    · have hcond : iW < (k % (iW / bW)) * bW + bW + bW := by
        rw [hlast]
        have h1 : (iW / bW - 1) * bW + bW + bW = (iW / bW + 1) * bW := by
          have h2 : iW / bW - 1 + 1 = iW / bW := Nat.succ_pred_eq_of_pos hc
          calc (iW / bW - 1) * bW + bW + bW
              = ((iW / bW - 1) + 1) * bW + bW := by ring
            _ = (iW / bW) * bW + bW := by rw [h2]
            _ = (iW / bW + 1) * bW := by ring
        rw [h1]
        exact lt_of_eq_of_lt hiWc.symm
          ((Nat.mul_lt_mul_right hbW).mpr (Nat.lt_succ_self _))
      rw [if_pos hcond]
      have hk1 : k + 1 = (iW / bW) * (k / (iW / bW) + 1) := by
        have := Nat.div_add_mod k (iW / bW)
        have h3 : iW / bW - 1 + 1 = iW / bW := Nat.succ_pred_eq_of_pos hc
        calc k + 1 = (iW / bW) * (k / (iW / bW)) + (k % (iW / bW)) + 1 := by
              rw [this]
          _ = (iW / bW) * (k / (iW / bW)) + ((iW / bW - 1) + 1) := by
              rw [hlast]; ring
          _ = (iW / bW) * (k / (iW / bW)) + iW / bW := by rw [h3]
          _ = (iW / bW) * (k / (iW / bW) + 1) := by ring
      have hmod1 : (k + 1) % (iW / bW) = 0 := by
        rw [hk1]
        exact Nat.mul_mod_right _ _
      have hdiv1 : (k + 1) / (iW / bW) = k / (iW / bW) + 1 := by
        rw [hk1]
        exact Nat.mul_div_cancel_left _ hc
      rw [hmod1, hdiv1]
      simp [Nat.add_mul]
    · have hlt2 : k % (iW / bW) + 1 < iW / bW := by omega
      have hcond : ¬ (iW < (k % (iW / bW)) * bW + bW + bW) := by
        have h1 : (k % (iW / bW)) * bW + bW + bW =
            (k % (iW / bW) + 2) * bW := by ring
        have h2 : (k % (iW / bW) + 2) * bW ≤ (iW / bW) * bW :=
          Nat.mul_le_mul_right bW (by omega)
        rw [h1]
        omega
      rw [if_neg hcond]
      have hk1 : k + 1 = (k % (iW / bW) + 1) + (k / (iW / bW)) * (iW / bW) := by
        have hdm : (k / (iW / bW)) * (iW / bW) + k % (iW / bW) = k := by
          rw [Nat.mul_comm]
          exact Nat.div_add_mod k (iW / bW)
        omega
      have hmod1 : (k + 1) % (iW / bW) = k % (iW / bW) + 1 := by
        rw [hk1, Nat.add_mul_mod_self_right, Nat.mod_eq_of_lt hlt2]
      have hdiv1 : (k + 1) / (iW / bW) = k / (iW / bW) := by
        rw [hk1, Nat.add_mul_div_right _ _ hc, Nat.div_eq_of_lt hlt2,
          Nat.zero_add]
      rw [hmod1, hdiv1]
      simp [Nat.add_mul]

lemma getD_map_range {M : Type} [Inhabited M] (f : ℕ → M) (n k : ℕ)
    (h : k < n) (d : M) : ((List.range n).map f).getD k d = f k := by
  rw [List.getD_eq_getElem?_getD, List.getElem?_map, List.getElem?_range h]
  rfl

/-- Closed form of the `calculateAverage` outer loop: block `k` (relative to
the starting cursor `p`) has its pixel scan based at the cursor obtained by
iterating the cursor update `k` times. -/
lemma calculateAverageAux_eq_map (imageVector : List ℤ)
    (gOff iW bS bW bH : ℕ) :
    ∀ (n : ℕ) (p : ℕ × ℕ),
      calculateAverageAux imageVector gOff iW bS bW bH n p =
        (List.range n).map (fun k =>
          (((blockScan imageVector iW
              (((nextBlockPos iW bW bH)^[k] p).1 +
                ((nextBlockPos iW bW bH)^[k] p).2 * iW + gOff)
              bW bS 0 0).sum : ℤ) : ℚ) / (bS : ℚ)) := by
  intro n
  induction n with
  | zero => intro p; simp [calculateAverageAux]
  | succ n ih =>
    intro p
    have htail : calculateAverageAux imageVector gOff iW bS bW bH n
        (nextBlockPos iW bW bH p) =
        (List.range n).map ((fun k =>
          (((blockScan imageVector iW
              (((nextBlockPos iW bW bH)^[k] p).1 +
                ((nextBlockPos iW bW bH)^[k] p).2 * iW + gOff)
              bW bS 0 0).sum : ℤ) : ℚ) / (bS : ℚ)) ∘ Nat.succ) := by
      rw [ih (nextBlockPos iW bW bH p)]
      refine List.map_congr_left (fun k _ => ?_)
      simp only [Function.comp_apply, Function.iterate_succ_apply]
    rw [List.range_succ_eq_map, List.map_cons, List.map_map,
      calculateAverageAux, htail]
    rfl

/-- Closed form of the `calculateVariance` outer loop, also tracking the
block index used to read `average[block]`. -/
lemma calculateVarianceAux_eq_map (imageVector : List ℤ)
    (gOff iW bS bW bH : ℕ) (average : List ℚ) :
    ∀ (n k0 : ℕ) (p : ℕ × ℕ),
      calculateVarianceAux imageVector gOff iW bS bW bH average n k0 p =
        (List.range n).map (fun k =>
          ((blockScan imageVector iW
              (((nextBlockPos iW bW bH)^[k] p).1 +
                ((nextBlockPos iW bW bH)^[k] p).2 * iW + gOff)
              bW bS 0 0).map
            (fun val => ((val : ℚ) - average.getD (k0 + k) 0) ^ 2)).sum /
            (bS : ℚ)) := by
  intro n
  induction n with
  | zero => intro k0 p; simp [calculateVarianceAux]
  | succ n ih =>
    intro k0 p
    have htail : calculateVarianceAux imageVector gOff iW bS bW bH average n
        (k0 + 1) (nextBlockPos iW bW bH p) =
        (List.range n).map ((fun k =>
          ((blockScan imageVector iW
              (((nextBlockPos iW bW bH)^[k] p).1 +
                ((nextBlockPos iW bW bH)^[k] p).2 * iW + gOff)
              bW bS 0 0).map
            (fun val => ((val : ℚ) - average.getD (k0 + k) 0) ^ 2)).sum /
            (bS : ℚ)) ∘ Nat.succ) := by
      rw [ih (k0 + 1) (nextBlockPos iW bW bH p)]
      refine List.map_congr_left (fun k _ => ?_)
      simp only [Function.comp_apply, Function.iterate_succ_apply,
        Nat.succ_eq_add_one]
      have hidx : k0 + 1 + k = k0 + (k + 1) := by omega
      rw [hidx]
    rw [List.range_succ_eq_map, List.map_cons, List.map_map,
      calculateVarianceAux, htail]
    rfl

/-! ## C1: variance is the population variance of the block -/

/-- C1: for every channel plane, valid block geometry
(`blockSize = blockWidth * blockHeight`, positive block width) and block
index, the reference path's `variance[block]` — `calculateVariance` applied
to the averages produced by `calculateAverage` — is the population variance
of that block's pixels: the sum of squared deviations from the block's own
average divided by `blockSize`, with no `n-1` correction. -/
theorem variance_is_population_variance (imageVector : List ℤ)
    (gOff iW n bS bW bH k : ℕ) (hbW : 0 < bW) (hbS : bS = bW * bH)
    (hk : k < n) :
    (calculateVariance imageVector gOff iW n bS bW bH
        (calculateAverage imageVector gOff iW n bS bW bH)).getD k 0 =
      specPopulationVariance
        (blockRect imageVector iW (blockOffset iW bW bH gOff k) bW bH) := by
  subst hbS
  rw [calculateVariance, calculateVarianceAux_eq_map,
    getD_map_range _ _ _ hk, calculateAverage, calculateAverageAux_eq_map]
  simp only [Nat.zero_add]
  rw [getD_map_range _ _ _ hk]
  have hoff : ((nextBlockPos iW bW bH)^[k] (0, 0)).1 +
      ((nextBlockPos iW bW bH)^[k] (0, 0)).2 * iW + gOff =
      blockOffset iW bW bH gOff k := rfl
  rw [hoff, blockScan_eq_blockRect imageVector iW _ bW bH hbW]
  simp only [specPopulationVariance, blockRect_length]

/-- Witness for C1 on the 2x2 plane `[1, 2, 3, 4]` with 2x1 blocks,
at block index 1. -/
theorem variance_is_population_variance_witness :
    (0 < 2) ∧ (2 = 2 * 1) ∧ (1 < 2) ∧
    ((calculateVariance [1, 2, 3, 4] 0 2 2 2 2 1
        (calculateAverage [1, 2, 3, 4] 0 2 2 2 2 1)).getD 1 0 =
      specPopulationVariance
        (blockRect [1, 2, 3, 4] 2 (blockOffset 2 2 1 0 1) 2 1)) :=
  ⟨by decide, by decide, by decide,
    variance_is_population_variance [1, 2, 3, 4] 0 2 2 2 2 1 1 (by decide)
      (by decide) (by decide)⟩

/-! ## C4: block averages conserve the plane total -/

lemma list_sum_map_range {M : Type} [AddCommMonoid M] (f : ℕ → M) (n : ℕ) :
    ((List.range n).map f).sum = ∑ i ∈ Finset.range n, f i := by
  induction n with
  | zero => simp
  | succ n ih => simp [List.range_succ, Finset.sum_range_succ, ih]

lemma sum_range_mul {M : Type} [AddCommMonoid M] (f : ℕ → M) (m n : ℕ) :
    ∑ k ∈ Finset.range (m * n), f k =
      ∑ i ∈ Finset.range m, ∑ j ∈ Finset.range n, f (i * n + j) := by
  induction m with
  | zero => simp
  | succ m ih =>
    rw [Finset.sum_range_succ, ← ih, Nat.succ_mul, Finset.range_eq_Ico,
      ← Finset.sum_Ico_consecutive f (Nat.zero_le (m * n))
        (Nat.le_add_right (m * n) n)]
    congr 1
    rw [Finset.sum_Ico_eq_sum_range, Nat.add_sub_cancel_left,
      ← Finset.range_eq_Ico]

/-- Splitting a sum over `range d` into `d / b` consecutive chunks of
length `b`, when `b` divides `d`. -/
lemma sum_range_tile {M : Type} [AddCommMonoid M] (g : ℕ → M) (d b : ℕ)
    (hdvd : b ∣ d) :
    ∑ x ∈ Finset.range d, g x =
      ∑ q ∈ Finset.range (d / b), ∑ r ∈ Finset.range b, g (q * b + r) := by
  conv_lhs => rw [show d = (d / b) * b from (Nat.div_mul_cancel hdvd).symm]
  rw [sum_range_mul]

lemma blockRect_sum (imageVector : List ℤ) (iW off bW bH : ℕ) :
    (blockRect imageVector iW off bW bH).sum =
      ∑ i ∈ Finset.range bH, ∑ j ∈ Finset.range bW,
        imageVector.getD (i * iW + j + off) 0 := by
  rw [blockRect, List.sum_flatten, List.map_map, list_sum_map_range]
  refine Finset.sum_congr rfl (fun i _ => ?_)
  simp only [Function.comp_apply]
  rw [list_sum_map_range]

lemma planeSum_eq_sum (imageVector : List ℤ) (gOff iW iH : ℕ) :
    planeSum imageVector gOff iW iH =
      ∑ y ∈ Finset.range iH, ∑ x ∈ Finset.range iW,
        imageVector.getD (y * iW + x + gOff) 0 := by
  rw [planeSum, list_sum_map_range]
  refine Finset.sum_congr rfl (fun y _ => ?_)
  rw [list_sum_map_range]

/-- When the block dimensions divide the plane dimensions, the cursor-driven
block traversal tiles the plane exactly: summing the pixel rectangles of all
`(iW/bW) * (iH/bH)` blocks gives the sum of the whole plane. -/
lemma sum_blockRect_eq_planeSum (imageVector : List ℤ) (gOff iW iH bW bH : ℕ)
    (hbW : 0 < bW) (hbH : 0 < bH) (hdW : bW ∣ iW) (hdH : bH ∣ iH)
    (hiW : 0 < iW) :
    ((List.range ((iW / bW) * (iH / bH))).map (fun k =>
      (blockRect imageVector iW (blockOffset iW bW bH gOff k) bW bH).sum)).sum =
      planeSum imageVector gOff iW iH := by
  have hc : 0 < iW / bW := Nat.div_pos (Nat.le_of_dvd hiW hdW) hbW
  rw [list_sum_map_range, planeSum_eq_sum]
  have hoff : ∀ k, blockOffset iW bW bH gOff k =
      (k % (iW / bW)) * bW + ((k / (iW / bW)) * bH) * iW + gOff := by
    intro k
    rw [blockOffset, blockPos_closed iW bW bH hbW hdW hiW k]
  calc ∑ k ∈ Finset.range ((iW / bW) * (iH / bH)),
        (blockRect imageVector iW (blockOffset iW bW bH gOff k) bW bH).sum
      = ∑ k ∈ Finset.range ((iH / bH) * (iW / bW)),
          ∑ i ∈ Finset.range bH, ∑ j ∈ Finset.range bW,
            imageVector.getD
              (((k / (iW / bW)) * bH + i) * iW + ((k % (iW / bW)) * bW + j) +
                gOff) 0 := by
        rw [Nat.mul_comm (iW / bW) (iH / bH)]
        refine Finset.sum_congr rfl (fun k _ => ?_)
        rw [blockRect_sum, hoff k]
        refine Finset.sum_congr rfl (fun i _ => ?_)
        refine Finset.sum_congr rfl (fun j _ => ?_)
        congr 1
        ring
    _ = ∑ br ∈ Finset.range (iH / bH), ∑ bc ∈ Finset.range (iW / bW),
          ∑ i ∈ Finset.range bH, ∑ j ∈ Finset.range bW,
            imageVector.getD
              ((br * bH + i) * iW + (bc * bW + j) + gOff) 0 := by
        rw [sum_range_mul]
        refine Finset.sum_congr rfl (fun br hbr => ?_)
        refine Finset.sum_congr rfl (fun bc hbc => ?_)
        rw [Finset.mem_range] at hbc
        have hdiv : (br * (iW / bW) + bc) / (iW / bW) = br := by
          rw [Nat.mul_comm br (iW / bW), Nat.mul_add_div hc,
            Nat.div_eq_of_lt hbc, Nat.add_zero]
        have hmod : (br * (iW / bW) + bc) % (iW / bW) = bc := by
          rw [Nat.mul_comm br (iW / bW), Nat.mul_add_mod,
            Nat.mod_eq_of_lt hbc]
        rw [hdiv, hmod]
    _ = ∑ br ∈ Finset.range (iH / bH), ∑ i ∈ Finset.range bH,
          ∑ bc ∈ Finset.range (iW / bW), ∑ j ∈ Finset.range bW,
            imageVector.getD
              ((br * bH + i) * iW + (bc * bW + j) + gOff) 0 := by
        refine Finset.sum_congr rfl (fun br _ => ?_)
        exact Finset.sum_comm
    _ = ∑ y ∈ Finset.range iH, ∑ x ∈ Finset.range iW,
          imageVector.getD (y * iW + x + gOff) 0 := by
        rw [sum_range_tile (fun y => ∑ x ∈ Finset.range iW,
          imageVector.getD (y * iW + x + gOff) 0) iH bH hdH]
        refine Finset.sum_congr rfl (fun br _ => ?_)
        refine Finset.sum_congr rfl (fun i _ => ?_)
        rw [sum_range_tile (fun x =>
          imageVector.getD ((br * bH + i) * iW + x + gOff) 0) iW bW hdW]

/-- C4: `Σ blockSize * average[block]` over the blocks of a plane equals the
sum of the pixel magnitudes actually covered by the traversed blocks, and —
when the block dimensions evenly divide the plane dimensions and the block
count is the full `(iW/bW) * (iH/bH)` — exactly the sum of all pixel
magnitudes in the plane (with non-dividing dimensions, edge pixels outside
whole blocks are truncated and only the covered pixels are counted). -/
theorem blocksum_average_totals_plane_sum (imageVector : List ℤ)
    (gOff iW iH n bS bW bH : ℕ) (hbW : 0 < bW) (hbH : 0 < bH)
    (hbS : bS = bW * bH) :
    ((calculateAverage imageVector gOff iW n bS bW bH).map
        (fun a => (bS : ℚ) * a)).sum =
      (((List.range n).map (fun k =>
        (blockRect imageVector iW (blockOffset iW bW bH gOff k) bW bH).sum)).sum
        : ℚ) ∧
    (bW ∣ iW → bH ∣ iH → 0 < iW → n = (iW / bW) * (iH / bH) →
      ((calculateAverage imageVector gOff iW n bS bW bH).map
          (fun a => (bS : ℚ) * a)).sum =
        ((planeSum imageVector gOff iW iH : ℤ) : ℚ)) := by
  have hbSpos : 0 < bS := by subst hbS; exact Nat.mul_pos hbW hbH
  have hbSne : ((bS : ℕ) : ℚ) ≠ 0 := by
    exact_mod_cast Nat.pos_iff_ne_zero.mp hbSpos
  have hpart1 : ((calculateAverage imageVector gOff iW n bS bW bH).map
      (fun a => (bS : ℚ) * a)).sum =
      (((List.range n).map (fun k =>
        (blockRect imageVector iW (blockOffset iW bW bH gOff k) bW bH).sum)).sum
        : ℚ) := by
    subst hbS
    rw [calculateAverage, calculateAverageAux_eq_map, List.map_map]
    rw [Int.cast_list_sum, List.map_map]
    refine congrArg List.sum (List.map_congr_left (fun k _ => ?_))
    simp only [Function.comp_apply]
    have hoff : ((nextBlockPos iW bW bH)^[k] (0, 0)).1 +
        ((nextBlockPos iW bW bH)^[k] (0, 0)).2 * iW + gOff =
        blockOffset iW bW bH gOff k := rfl
    rw [hoff, blockScan_eq_blockRect imageVector iW _ bW bH hbW]
    rw [mul_div_cancel₀]
    exact_mod_cast Nat.pos_iff_ne_zero.mp (Nat.mul_pos hbW hbH)
  refine ⟨hpart1, fun hdW hdH hiW hn => ?_⟩
  rw [hpart1, hn, sum_blockRect_eq_planeSum imageVector gOff iW iH bW bH hbW
    hbH hdW hdH hiW]

/-- Witness for C4 on the 2x2 plane `[1, 2, 3, 4]` with 2x1 blocks. -/
theorem blocksum_average_totals_plane_sum_witness :
    (0 < 2) ∧ (0 < 1) ∧ (2 = 2 * 1) ∧
    (((calculateAverage [1, 2, 3, 4] 0 2 2 2 2 1).map
        (fun a => ((2 : ℕ) : ℚ) * a)).sum =
      (((List.range 2).map (fun k =>
        (blockRect [1, 2, 3, 4] 2 (blockOffset 2 2 1 0 k) 2 1).sum)).sum : ℚ) ∧
    ((2 : ℕ) ∣ 2 → (1 : ℕ) ∣ 2 → 0 < 2 → 2 = (2 / 2) * (2 / 1) →
      ((calculateAverage [1, 2, 3, 4] 0 2 2 2 2 1).map
          (fun a => ((2 : ℕ) : ℚ) * a)).sum =
        ((planeSum [1, 2, 3, 4] 0 2 2 : ℤ) : ℚ))) :=
  ⟨by decide, by decide, by decide,
    blocksum_average_totals_plane_sum [1, 2, 3, 4] 0 2 2 2 2 2 1 (by decide)
      (by decide) (by decide)⟩
